import Mathlib

/-!
Verification of the yaffel expression language implementation.

The first part (`namespace Yaffel`) is a shallow embedding of the
implementation in `yaffel/parser.py`: the tokenizer `tokenize`, the
grammar rules (`atom`, `factor`, `term`, `expression`, `binding`,
`context`, `evaluable`, `evaluation`, `enumeration`, `range_`, `set_`,
`set_binding`, `set_context`, `yaffel`) and the evaluation model
(`Function.__call__`, `Function._value`, `eval_expr`, `make_context`,
`make_enum`, `make_range`, `make_number`).  The grammar in the source is
built from funcparserlib combinators; here each rule is a function from a
token list to `Except` of a result and the remaining tokens, with the
same ordered-choice behaviour (`|` recovers only from a no-parse
failure, every other exception propagates) and the same eager evaluation
inside semantic actions.  Python integers are modelled as `Int` and
Python floats as `Rat` (exact rational arithmetic in place of IEEE
doubles).

The second part (`namespace YaffelSpec`) models, from the specification,
the language constructs that are exercised by the test-suite but are not
present in `yaffel/parser.py` (the equality predicate on values, the
ternary conditional, anonymous function literals and application).
-/

namespace Yaffel

/-- Failure modes of a `parse` call: lexer failure, grammar no-parse
(funcparserlib `NoParseError`), `EvaluationError` (carries the offending
name or message), `TypeError`, `ZeroDivisionError`, plus two artefacts of
the embedding: `fuel` (recursion budget exhausted, never reached for the
inputs considered here) and `unsupported` (an operation on rationals that
has no exact counterpart, e.g. a non-integral exponent). -/
inductive YErr where
  | lexErr
  | noParse
  | fuel
  | evalErr (msg : String)
  | typeErr (msg : String)
  | zeroDiv
  | unsupported
  deriving DecidableEq, Repr

/-- Token classes of the tokenizer specification (`space` tokens are
discarded by `tokenize` and never reach the grammar). -/
inductive TokTy where
  | number
  | strTok
  | op
  | name
  deriving DecidableEq, Repr

/-- A lexer token: class and matched text. -/
structure Tok where
  ty : TokTy
  val : String
  deriving DecidableEq, Repr

def isSpaceChar (c : Char) : Bool :=
  c == ' ' || c == '\t' || c == '\r' || c == '\n'

def isNameStart (c : Char) : Bool := c.isAlpha || c == '_'

def isNameChar (c : Char) : Bool := c.isAlpha || c.isDigit || c == '_'

/-- The integer part of the number regexp `(0|[1-9][0-9]*)`: a lone `0`,
or a nonzero digit followed by any digits. -/
def numTail (cs : List Char) : Option (List Char × List Char) :=
  match cs with
  | [] => none
  | c :: rest =>
    if c == '0' then some ([c], rest)
    else if c.isDigit then
      let p := rest.span Char.isDigit
      some (c :: p.1, p.2)
    else none

/-- The optional fraction `(\.[0-9]+)?`: a dot must be followed by at
least one digit, otherwise nothing is consumed. -/
def fracPart (cs : List Char) : List Char × List Char :=
  match cs with
  | '.' :: rest =>
    let p := rest.span Char.isDigit
    if p.1.isEmpty then ([], cs) else ('.' :: p.1, p.2)
  | _ => ([], cs)

/-- The optional exponent `([Ee][+-][0-9]+)?`: the sign is mandatory in
the source regexp, and at least one digit must follow. -/
def expPart (cs : List Char) : List Char × List Char :=
  match cs with
  | e :: s :: rest =>
    if (e == 'e' || e == 'E') && (s == '+' || s == '-') then
      let p := rest.span Char.isDigit
      if p.1.isEmpty then ([], cs) else (e :: s :: p.1, p.2)
    else ([], cs)
  | _ => ([], cs)

/-- The optional sign `-?` of the number pattern. -/
def numSign (cs : List Char) : List Char × List Char :=
  match cs with
  | c :: r => if c = '-' then (['-'], r) else ([], cs)
  | [] => ([], cs)

/-- The `number` token pattern `-?(0|([1-9][0-9]*))(\.[0-9]+)?([Ee][+-][0-9]+)?`.
A leading `-` directly followed by digits is part of the literal. -/
def matchNumber (cs : List Char) : Option (List Char × List Char) :=
  let sp := numSign cs
  match numTail sp.2 with
  | none => none
  | some (ip, r1) =>
    let f := fracPart r1
    let e := expPart f.2
    some (sp.1 ++ ip ++ f.1 ++ e.1, e.2)

/-- The `string` token pattern `"[^"]*"` (no escape processing). -/
def matchString (cs : List Char) : Option (List Char × List Char) :=
  match cs with
  | '"' :: rest =>
    let p := rest.span (fun c => c != '"')
    match p.2 with
    | '"' :: r2 => some ('"' :: (p.1 ++ ['"']), r2)
    | _ => none
  | _ => none

def singleOpChars : List Char :=
  ['\x7b', '\x7d', '[', ']', '(', ')', '-', '+', '*', '/', '=', '>', '<', '.', ',', ':']

/-- The `operator` token pattern
`(\*\*)|(and)|(or)|(in)|[{}\[\]\(\)\-\+\*/=><\.,:]`, alternatives tried
left to right exactly as the regexp engine does. -/
def matchOp (cs : List Char) : Option (List Char × List Char) :=
  match cs with
  | '*' :: '*' :: r => some (['*', '*'], r)
  | 'a' :: 'n' :: 'd' :: r => some (['a', 'n', 'd'], r)
  | 'o' :: 'r' :: r => some (['o', 'r'], r)
  | 'i' :: 'n' :: r => some (['i', 'n'], r)
  | c :: r => if singleOpChars.contains c then some ([c], r) else none
  | [] => none

/-- The `name` token pattern `[A-Za-z_][A-Za-z_0-9]*`. -/
def matchName (cs : List Char) : Option (List Char × List Char) :=
  match cs with
  | c :: r =>
    if isNameStart c then
      let p := r.span isNameChar
      some (c :: p.1, p.2)
    else none
  | [] => none

/-- One tokenizer step per fuel unit.  The specifications are tried in
the source order: `space`, `number`, `string`, `operator`, `name`; the
first match wins.  `space` tokens are dropped (the source filters them
out of the result).  A position with no match is a lexer error. -/
def tokenizeGo : Nat → List Char → Except YErr (List Tok)
  | 0, _ => .error .fuel
  | _, [] => .ok []
  | n + 1, cs =>
    if isSpaceChar (cs.headD ' ') then
      tokenizeGo n (cs.dropWhile isSpaceChar)
    else match matchNumber cs with
    | some (m, r) => do
      let ts ← tokenizeGo n r
      .ok (⟨.number, String.mk m⟩ :: ts)
    | none => match matchString cs with
      | some (m, r) => do
        let ts ← tokenizeGo n r
        .ok (⟨.strTok, String.mk m⟩ :: ts)
      | none => match matchOp cs with
        | some (m, r) => do
          let ts ← tokenizeGo n r
          .ok (⟨.op, String.mk m⟩ :: ts)
        | none => match matchName cs with
          | some (m, r) => do
            let ts ← tokenizeGo n r
            .ok (⟨.name, String.mk m⟩ :: ts)
          | none => .error .lexErr

/-- `tokenize`: run the lexer over the whole input. -/
def tokenize (s : String) : Except YErr (List Tok) :=
  tokenizeGo (s.length + 1) s.data

/-- The binary operators of the grammar, i.e. the semantic actions
`operator.add`, `operator.sub`, `operator.mul`, `operator.truediv`,
`operator.pow`, `operator.and_`, `operator.or_`. -/
inductive Op where
  | add
  | sub
  | mul
  | div
  | pow
  | bitand
  | bitor
  deriving DecidableEq, Repr

mutual
/-- Runtime values: Python `int`, `float` (modelled as `Rat`), `str`,
and the yaffel classes `Enumeration` (its `elements` set, kept as a
duplicate-free list), `Range` (its two evaluated bounds, stored without
any validation, exactly as `Range.__init__` does) and `Set` (a lazy
comprehension: the parsed body together with its optional context). -/
inductive Val where
  | int (i : Int)
  | float (q : Rat)
  | str (s : String)
  | enum (xs : List Val)
  | range (lo hi : Val)
  | setc (f : Term) (ctx : Option (List (String × Val)))

/-- A term as held by `Function`: either an already-evaluated constant
(the result of `make_number`, or a nested value), a `name` token (a
variable to be looked up at call time), or a nested `Function`
(`head` plus the `(operator, operand)` chain built by `make_function`). -/
inductive Term where
  | val (v : Val)
  | name (s : String)
  | func (head : Term) (expr : List (Op × Term))
end

/-- An evaluation context: the bindings dictionary, with pairwise
distinct keys (enforced by `make_context`). -/
abbrev Ctx := List (String × Val)

def ctxFind (ctx : Ctx) (n : String) : Option Val :=
  match ctx.find? (fun p => p.1 == n) with
  | some p => some p.2
  | none => none

/-- String repetition, for Python `str * int`. -/
def strRepeat (s : String) (n : Int) : String :=
  String.join (List.replicate n.toNat s)

/-- Application of one of the grammar operators to two values, with
Python semantics: `+ - *` promote `int` to `float` when mixed, `+` also
concatenates strings and `*` repeats them, `/` is `operator.truediv`
(always a float, `ZeroDivisionError` on a zero divisor), `**` is
`operator.pow` (`int ** nonnegative int` stays `int`, a negative integer
exponent gives a float, `0` to a negative power is `ZeroDivisionError`),
`and`/`or` are the bitwise `operator.and_`/`operator.or_`, defined on
integers only.  Every other combination is a Python `TypeError`.
A non-integral rational exponent has no exact model and is reported as
`unsupported` (never reached in this development). -/
def applyOp : Op → Val → Val → Except YErr Val
  | .add, .int a, .int b => .ok (.int (a + b))
  | .add, .int a, .float b => .ok (.float (a + b))
  | .add, .float a, .int b => .ok (.float (a + b))
  | .add, .float a, .float b => .ok (.float (a + b))
  | .add, .str a, .str b => .ok (.str (a ++ b))
  | .add, _, _ => .error (.typeErr "unsupported operand types for add")
  | .sub, .int a, .int b => .ok (.int (a - b))
  | .sub, .int a, .float b => .ok (.float (a - b))
  | .sub, .float a, .int b => .ok (.float (a - b))
  | .sub, .float a, .float b => .ok (.float (a - b))
  | .sub, _, _ => .error (.typeErr "unsupported operand types for sub")
  | .mul, .int a, .int b => .ok (.int (a * b))
  | .mul, .int a, .float b => .ok (.float (a * b))
  | .mul, .float a, .int b => .ok (.float (a * b))
  | .mul, .float a, .float b => .ok (.float (a * b))
  | .mul, .str a, .int b => .ok (.str (strRepeat a b))
  | .mul, .int a, .str b => .ok (.str (strRepeat b a))
  | .mul, _, _ => .error (.typeErr "unsupported operand types for mul")
  | .div, .int a, .int b =>
    if b = 0 then .error .zeroDiv else .ok (.float ((a : Rat) / (b : Rat)))
  | .div, .int a, .float b =>
    if b = 0 then .error .zeroDiv else .ok (.float ((a : Rat) / b))
  | .div, .float a, .int b =>
    if b = 0 then .error .zeroDiv else .ok (.float (a / (b : Rat)))
  | .div, .float a, .float b =>
    if b = 0 then .error .zeroDiv else .ok (.float (a / b))
  | .div, _, _ => .error (.typeErr "unsupported operand types for div")
  | .pow, .int a, .int b =>
    if 0 ≤ b then .ok (.int (a ^ b.toNat))
    else if a = 0 then .error .zeroDiv
    else .ok (.float ((a : Rat) ^ b))
  | .pow, .float a, .int b =>
    if a = 0 ∧ b < 0 then .error .zeroDiv else .ok (.float (a ^ b))
  | .pow, .int a, .float b =>
    if b.den = 1 then
      if a = 0 ∧ b.num < 0 then .error .zeroDiv
      else .ok (.float ((a : Rat) ^ b.num))
    else .error .unsupported
  | .pow, .float a, .float b =>
    if b.den = 1 then
      if a = 0 ∧ b.num < 0 then .error .zeroDiv
      else .ok (.float (a ^ b.num))
    else .error .unsupported
  | .pow, _, _ => .error (.typeErr "unsupported operand types for pow")
  | .bitand, .int a, .int b => .ok (.int (Int.land a b))
  | .bitand, _, _ => .error (.typeErr "unsupported operand types for and")
  | .bitor, .int a, .int b => .ok (.int (Int.lor a b))
  | .bitor, _, _ => .error (.typeErr "unsupported operand types for or")

mutual
/-- `Function._value`: a `Token` is looked up in the context (a missing
name is the `EvaluationError` "unbound variable"), a nested `Function`
is called with the same context, anything else is already a value; for a
`Function` term this continues into `Function.__call__`: evaluate the
head, then fold the `(operator, operand)` chain left to right. -/
def valueOf : Term → Ctx → Except YErr Val
  | .val v, _ => .ok v
  | .name s, ctx =>
    match ctxFind ctx s with
    | some v => .ok v
    | none => .error (.evalErr s)
  | .func h e, ctx => do
    let a ← valueOf h ctx
    chain a e ctx

/-- The loop of `Function.__call__`: `for f, b in self.expr:
a = f(a, self._value(b, context))`. -/
def chain : Val → List (Op × Term) → Ctx → Except YErr Val
  | a, [], _ => .ok a
  | a, (f, b) :: rest, ctx => do
    let vb ← valueOf b ctx
    let c ← applyOp f a vb
    chain c rest ctx
end

/-- `eval_expr`: call the parsed `Function` with the bindings of the
`for` clause as keyword arguments.  When there is no `for` clause the
source passes `**None`, which raises `TypeError` immediately and falls
back to a call with no bindings; a `TypeError` raised from inside the
call is caught by the same handler and retried without bindings. -/
def evalExpr (f : Term) (ctx : Option Ctx) : Except YErr Val :=
  match ctx with
  | none => valueOf f []
  | some c =>
    match valueOf f c with
    | .error (.typeErr _) => valueOf f []
    | r => r

/-- `make_context`: start from the head binding, then insert the tail
bindings one by one, failing with `EvaluationError` as soon as a name is
already bound. -/
def makeContextGo (acc : Ctx) : List (String × Val) → Except YErr Ctx
  | [] => .ok acc
  | (k, v) :: rest =>
    if acc.any (fun p => p.1 == k) then .error (.evalErr (k ++ " is already bound"))
    else makeContextGo (acc ++ [(k, v)]) rest

def makeContext (head : String × Val) (tail : List (String × Val)) : Except YErr Ctx :=
  makeContextGo [head] tail

/-- `make_number`: `int(t)` if that succeeds, else `float(t)`.  A token
produced by the `number` pattern parses as an integer exactly when it
has no fraction dot and no exponent. -/
def parseDigits (cs : List Char) : Nat :=
  cs.foldl (fun a c => 10 * a + (c.toNat - 48)) 0

def parseIntChars (cs : List Char) : Int :=
  match cs with
  | '-' :: r => -(parseDigits r : Int)
  | _ => (parseDigits cs : Int)

def parseFloatChars (cs : List Char) : Rat :=
  let sp : Bool × List Char :=
    match cs with
    | '-' :: r => (true, r)
    | _ => (false, cs)
  let ipp := sp.2.span Char.isDigit
  let fpp : List Char × List Char :=
    match ipp.2 with
    | '.' :: r => r.span Char.isDigit
    | _ => ([], ipp.2)
  let ep : Bool × List Char :=
    match fpp.2 with
    | _ :: s :: r => (s == '-', (r.span Char.isDigit).1)
    | _ => (false, [])
  let mant : Rat := (parseDigits (ipp.1 ++ fpp.1) : Rat) / ((10 : Rat) ^ fpp.1.length)
  let scaled : Rat :=
    if ep.1 then mant / ((10 : Rat) ^ parseDigits ep.2)
    else mant * ((10 : Rat) ^ parseDigits ep.2)
  if sp.1 then -scaled else scaled

def hasFloatMark (cs : List Char) : Bool :=
  cs.any (fun c => c == '.' || c == 'e' || c == 'E')

def makeNumber (s : String) : Val :=
  if hasFloatMark s.data then .float (parseFloatChars s.data)
  else .int (parseIntChars s.data)

/-- The plain integer literals of the `number` pattern: a lone `0`, or a
nonzero digit followed by digits (exactly the strings the integer part
of the regexp consumes in full). -/
def isIntLitB (cs : List Char) : Bool :=
  match cs with
  | [] => false
  | c :: tl =>
    (c == '0' && tl.isEmpty) || (c.isDigit && !(c == '0') && tl.all Char.isDigit)

/-- The type of a parser over the token sequence: the result together
with the unconsumed suffix, or a failure.  Ordered choice recovers only
from `noParse`; every other failure (in particular `EvaluationError`,
`TypeError`, `ZeroDivisionError` raised by eager semantic actions)
propagates, as exceptions other than `NoParseError` do in the source. -/
abbrev P (α : Type) := List Tok → Except YErr (α × List Tok)

mutual

/-- `atom = number | name | ( '(' expression ')' )`.  A number token is
converted by `make_number`; a name token is kept as a token (resolved at
evaluation time). -/
def atomP : Nat → P Term
  | 0, _ => .error .fuel
  | n + 1, ts =>
    match ts with
    | ⟨.number, s⟩ :: r => .ok (.val (makeNumber s), r)
    | ⟨.name, s⟩ :: r => .ok (.name s, r)
    | ⟨.op, "("⟩ :: r => do
      let (e, r1) ← expressionP n r
      match r1 with
      | ⟨.op, ")"⟩ :: r2 => .ok (e, r2)
      | _ => .error .noParse
    | _ => .error .noParse

/-- `many(power + atom)`: collect `** operand` pairs; `many` stops,
without consuming, at the first no-parse failure of its argument. -/
def manyPowP : Nat → P (List (Op × Term))
  | 0, _ => .error .fuel
  | n + 1, ts =>
    match ts with
    | ⟨.op, "**"⟩ :: r =>
      match atomP n r with
      | .ok (a, r1) =>
        match manyPowP n r1 with
        | .ok (l, r2) => .ok ((.pow, a) :: l, r2)
        | .error e => .error e
      | .error .noParse => .ok ([], ts)
      | .error e => .error e
    | _ => .ok ([], ts)

/-- `factor = atom + many(power + atom) >> make_function`. -/
def factorP : Nat → P Term
  | 0, _ => .error .fuel
  | n + 1, ts => do
    let (a, r) ← atomP n ts
    let (l, r2) ← manyPowP n r
    .ok (.func a l, r2)

/-- `many(mul_op + factor)` with `mul_op = mul | div`. -/
def manyMulP : Nat → P (List (Op × Term))
  | 0, _ => .error .fuel
  | n + 1, ts =>
    match ts with
    | ⟨.op, v⟩ :: r =>
      if v == "*" || v == "/" then
        match factorP n r with
        | .ok (a, r1) =>
          match manyMulP n r1 with
          | .ok (l, r2) => .ok ((if v == "*" then Op.mul else Op.div, a) :: l, r2)
          | .error e => .error e
        | .error .noParse => .ok ([], ts)
        | .error e => .error e
      else .ok ([], ts)
    | _ => .ok ([], ts)

/-- `term = factor + many(mul_op + factor) >> make_function`. -/
def termP : Nat → P Term
  | 0, _ => .error .fuel
  | n + 1, ts => do
    let (a, r) ← factorP n ts
    let (l, r2) ← manyMulP n r
    .ok (.func a l, r2)

/-- `many((add_op | bin_op) + term)` with `add_op = add | sub` and
`bin_op = or_ | and_`: `+ - or and` all live in this lowest tier. -/
def manyAddP : Nat → P (List (Op × Term))
  | 0, _ => .error .fuel
  | n + 1, ts =>
    match ts with
    | ⟨.op, v⟩ :: r =>
      if v == "+" || v == "-" || v == "or" || v == "and" then
        match termP n r with
        | .ok (a, r1) =>
          match manyAddP n r1 with
          | .ok (l, r2) =>
            let o : Op :=
              if v == "+" then .add else if v == "-" then .sub
              else if v == "or" then .bitor else .bitand
            .ok ((o, a) :: l, r2)
          | .error e => .error e
        | .error .noParse => .ok ([], ts)
        | .error e => .error e
      else .ok ([], ts)
    | _ => .ok ([], ts)

/-- `expression = term + many((add_op | bin_op) + term) >> make_function`. -/
def expressionP : Nat → P Term
  | 0, _ => .error .fuel
  | n + 1, ts => do
    let (a, r) ← termP n ts
    let (l, r2) ← manyAddP n r
    .ok (.func a l, r2)

/-- `binding = name + '=' + evaluation >> make_binding`: the initializer
is an `evaluation`, parsed and evaluated eagerly right here. -/
def bindingP : Nat → P (String × Val)
  | 0, _ => .error .fuel
  | n + 1, ts =>
    match ts with
    | ⟨.name, nm⟩ :: ⟨.op, "="⟩ :: r => do
      let (v, r1) ← evaluationP n r
      .ok ((nm, v), r1)
    | _ => .error .noParse

/-- `many(',' + binding)`. -/
def manyBindingP : Nat → P (List (String × Val))
  | 0, _ => .error .fuel
  | n + 1, ts =>
    match ts with
    | ⟨.op, ","⟩ :: r =>
      match bindingP n r with
      | .ok (b, r1) =>
        match manyBindingP n r1 with
        | .ok (l, r2) => .ok (b :: l, r2)
        | .error e => .error e
      | .error .noParse => .ok ([], ts)
      | .error e => .error e
    | _ => .ok ([], ts)

/-- `context = binding + many(',' + binding) >> make_context`. -/
def contextP : Nat → P Ctx
  | 0, _ => .error .fuel
  | n + 1, ts => do
    let (h, r) ← bindingP n ts
    let (t, r2) ← manyBindingP n r
    let c ← makeContext h t
    .ok (c, r2)

/-- `evaluable = expression + maybe('for' + context) >> eval_expr`:
parse the expression, optionally parse a trailing context declaration
(`maybe` resets to before `for` if the context fails with no-parse), and
evaluate immediately. -/
def evaluableP : Nat → P Val
  | 0, _ => .error .fuel
  | n + 1, ts => do
    let (e, r) ← expressionP n ts
    match r with
    | ⟨.name, "for"⟩ :: r1 =>
      match contextP n r1 with
      | .ok (c, r2) => do
        let v ← evalExpr e (some c)
        .ok (v, r2)
      | .error .noParse => do
        let v ← evalExpr e none
        .ok (v, r)
      | .error err => .error err
    | _ => do
      let v ← evalExpr e none
      .ok (v, r)

/-- `evaluation = evaluable | ( '(' evaluable ')' )`. -/
def evaluationP : Nat → P Val
  | 0, _ => .error .fuel
  | n + 1, ts =>
    match evaluableP n ts with
    | .ok res => .ok res
    | .error .noParse =>
      match ts with
      | ⟨.op, "("⟩ :: r =>
        match evaluableP n r with
        | .ok (v, r1) =>
          match r1 with
          | ⟨.op, ")"⟩ :: r2 => .ok (v, r2)
          | _ => .error .noParse
        | .error e => .error e
      | _ => .error .noParse
    | .error e => .error e

/-- `many(',' + expression)` inside an enumeration literal. -/
def manyExprP : Nat → P (List Term)
  | 0, _ => .error .fuel
  | n + 1, ts =>
    match ts with
    | ⟨.op, ","⟩ :: r =>
      match expressionP n r with
      | .ok (e, r1) =>
        match manyExprP n r1 with
        | .ok (l, r2) => .ok (e :: l, r2)
        | .error e2 => .error e2
      | .error .noParse => .ok ([], ts)
      | .error e2 => .error e2
    | _ => .ok ([], ts)

/-- `maybe('for' + context)`, shared by the three set forms. -/
def maybeForContextP : Nat → P (Option Ctx)
  | 0, _ => .error .fuel
  | n + 1, ts =>
    match ts with
    | ⟨.name, "for"⟩ :: r1 =>
      match contextP n r1 with
      | .ok (c, r2) => .ok (some c, r2)
      | .error .noParse => .ok (none, ts)
      | .error err => .error err
    | _ => .ok (none, ts)

end

/-- Python `==` as used by set construction (`{a} | {b for b in ...}`
deduplicates through value equality): numbers compare across `int` and
`float`, strings compare by content; distinct composite objects are
never equal (CPython identity equality, identity is not modelled). -/
def pyEqb : Val → Val → Bool
  | .int a, .int b => a == b
  | .int a, .float q => (a : Rat) == q
  | .float q, .int a => q == (a : Rat)
  | .float p, .float q => p == q
  | .str a, .str b => a == b
  | _, _ => false

/-- Collect evaluated enumeration elements into a duplicate-free list,
keeping the first occurrence, as a Python `set` of values would. -/
def dedupPy (vs : List Val) : List Val :=
  vs.foldl (fun acc v => if acc.any (fun w => pyEqb w v) then acc else acc ++ [v]) []

mutual

/-- `enumeration = '{' + maybe(expression + many(',' + expression)) +
maybe('for' + context) + '}' >> make_enum`: on success evaluate every
element under the optional context and collapse duplicates; an absent
element list is the empty enumeration. -/
def enumerationP : Nat → P Val
  | 0, _ => .error .fuel
  | n + 1, ts =>
    match ts with
    | ⟨.op, "\x7b"⟩ :: r =>
      let elemsRes : Except YErr (Option (Term × List Term) × List Tok) :=
        match expressionP n r with
        | .ok (e, r1) =>
          match manyExprP n r1 with
          | .ok (l, r2) => .ok (some (e, l), r2)
          | .error e2 => .error e2
        | .error .noParse => .ok (none, r)
        | .error e2 => .error e2
      match elemsRes with
      | .error e2 => .error e2
      | .ok (elems?, r2) =>
        match maybeForContextP n r2 with
        | .error e2 => .error e2
        | .ok (ctx?, r3) =>
          match r3 with
          | ⟨.op, "\x7d"⟩ :: r4 =>
            match elems? with
            | none => .ok (.enum [], r4)
            | some (e0, es) => do
              let v0 ← evalExpr e0 ctx?
              let vs ← es.mapM (fun e => evalExpr e ctx?)
              .ok (.enum (dedupPy (v0 :: vs)), r4)
          | _ => .error .noParse
    | _ => .error .noParse

/-- `range_ = '{' + expression + ':' + expression + maybe('for' +
context) + '}' >> make_range`: `make_range` evaluates both bounds and
builds `Range(lower, upper)` directly; the bounds are not compared or
type-checked in any way. -/
def rangeP : Nat → P Val
  | 0, _ => .error .fuel
  | n + 1, ts =>
    match ts with
    | ⟨.op, "\x7b"⟩ :: r => do
      let (e1, r1) ← expressionP n r
      match r1 with
      | ⟨.op, ":"⟩ :: r2 => do
        let (e2, r3) ← expressionP n r2
        let (ctx?, r4) ← maybeForContextP n r3
        match r4 with
        | ⟨.op, "\x7d"⟩ :: r5 => do
          let lo ← evalExpr e1 ctx?
          let hi ← evalExpr e2 ctx?
          .ok (.range lo hi, r5)
        | _ => .error .noParse
      | _ => .error .noParse
    | _ => .error .noParse

/-- `set_ = '{' + expression + maybe('for' + set_context) + '}' >>
make_set`: the comprehension stays lazy, `Set` just stores the parsed
body and the optional context. -/
def setP : Nat → P Val
  | 0, _ => .error .fuel
  | n + 1, ts =>
    match ts with
    | ⟨.op, "\x7b"⟩ :: r => do
      let (e, r1) ← expressionP n r
      let (ctx?, r2) ← maybeSetContextP n r1
      match r2 with
      | ⟨.op, "\x7d"⟩ :: r3 => .ok (.setc e ctx?, r3)
      | _ => .error .noParse
    | _ => .error .noParse

/-- `set_expr = enumeration | range_ | set_`. -/
def setExprP : Nat → P Val
  | 0, _ => .error .fuel
  | n + 1, ts =>
    match enumerationP n ts with
    | .ok res => .ok res
    | .error .noParse =>
      match rangeP n ts with
      | .ok res => .ok res
      | .error .noParse => setP n ts
      | .error e => .error e
    | .error e => .error e

/-- `set_binding = name + 'in' + set_expr >> make_binding`. -/
def setBindingP : Nat → P (String × Val)
  | 0, _ => .error .fuel
  | n + 1, ts =>
    match ts with
    | ⟨.name, nm⟩ :: ⟨.op, "in"⟩ :: r => do
      let (v, r1) ← setExprP n r
      .ok ((nm, v), r1)
    | _ => .error .noParse

/-- `many(',' + set_binding)`. -/
def manySetBindingP : Nat → P (List (String × Val))
  | 0, _ => .error .fuel
  | n + 1, ts =>
    match ts with
    | ⟨.op, ","⟩ :: r =>
      match setBindingP n r with
      | .ok (b, r1) =>
        match manySetBindingP n r1 with
        | .ok (l, r2) => .ok (b :: l, r2)
        | .error e => .error e
      | .error .noParse => .ok ([], ts)
      | .error e => .error e
    | _ => .ok ([], ts)

/-- `set_context = set_binding + many(',' + set_binding) >> make_context`. -/
def setContextP : Nat → P Ctx
  | 0, _ => .error .fuel
  | n + 1, ts => do
    let (h, r) ← setBindingP n ts
    let (t, r2) ← manySetBindingP n r
    let c ← makeContext h t
    .ok (c, r2)

/-- `maybe('for' + set_context)` inside `set_`. -/
def maybeSetContextP : Nat → P (Option Ctx)
  | 0, _ => .error .fuel
  | n + 1, ts =>
    match ts with
    | ⟨.name, "for"⟩ :: r1 =>
      match setContextP n r1 with
      | .ok (c, r2) => .ok (some c, r2)
      | .error .noParse => .ok (none, ts)
      | .error err => .error err
    | _ => .ok (none, ts)

end

/-- The dynamic type tags `parse` can report, i.e. `type(parsed)` for
the values the source can produce. -/
inductive Ty where
  | int
  | float
  | str
  | enumeration
  | range
  | set
  deriving DecidableEq, Repr

def tyOf : Val → Ty
  | .int _ => .int
  | .float _ => .float
  | .str _ => .str
  | .enum _ => .enumeration
  | .range _ _ => .range
  | .setc _ _ => .set

/-- `yaffel = (evaluable | set_expr) + skip(finished)`: once the chosen
alternative succeeds, all tokens must have been consumed (there is no
backtracking into the other alternative after `finished` fails). -/
def yaffelGo : Nat → P Val
  | 0, _ => .error .fuel
  | n + 1, ts =>
    match evaluableP n ts with
    | .ok res => .ok res
    | .error .noParse => setExprP n ts
    | .error e => .error e

/-- Run the grammar on an already-tokenized sequence and pair the result
with its dynamic type, as `parse` returns `(type(parsed), parsed)`; the
fuel argument bounds the recursion depth of the grammar rules. -/
def parseToksFuel (fuel : Nat) (ts : List Tok) : Except YErr (Ty × Val) := do
  let (v, rest) ← yaffelGo fuel ts
  match rest with
  | [] => .ok (tyOf v, v)
  | _ => .error .noParse

/-- `parseToksFuel` with a fuel budget that is ample for any token
sequence (the grammar recursion is driven by token consumption). -/
def parseToks (ts : List Tok) : Except YErr (Ty × Val) :=
  parseToksFuel (5 * ts.length + 10) ts

/-- `parse`: tokenize and parse/evaluate a whole program. -/
def parse (s : String) : Except YErr (Ty × Val) := do
  let ts ← tokenize s
  parseToks ts

end Yaffel

namespace YaffelSpec

/-- Modelled from the spec: the atomic literal payloads of an AST
`Literal` node (numeric, boolean and string constants; composite values
arise only from the dedicated set and function nodes). -/
inductive SLit where
  | int (i : Int)
  | float (q : Rat)
  | bool (b : Bool)
  | str (s : String)
  deriving DecidableEq, Repr

/-- Modelled from the spec: the arithmetic operators of the value
model, with the numeric promotion invariant of section 3. -/
inductive SBinOp where
  | add
  | sub
  | mul
  | div
  deriving DecidableEq, Repr

/-- Modelled from the spec: the AST node types of section 3 that are
exercised by the claims but absent from `yaffel/parser.py` (the equality
predicate, the ternary conditional, anonymous function literals and
application) together with the set constructors.  `compr` is a
comprehension with a single binding (one bound name over one source
set; the spec only requires a single binding in the current scope). -/
inductive SAst where
  | lit (v : SLit)
  | varRef (n : String)
  | bin (op : SBinOp) (l r : SAst)
  | eqTest (l r : SAst)
  | cond (c t e : SAst)
  | funLit (ps : List String) (body : SAst)
  | app (f : SAst) (args : List SAst)
  | enumLit (es : List SAst)
  | rangeLit (lo hi : SAst)
  | compr (body : SAst) (n : String) (src : SAst)

/-- Modelled from the spec: runtime values — `Int`, `Float` (exact
rationals), `Bool`, `Str`, extensional sets (`setv`), integer ranges
(`rangev`, with `lower < upper` enforced at construction), and function
values (parameter names plus body). -/
inductive SVal where
  | int (i : Int)
  | float (q : Rat)
  | bool (b : Bool)
  | str (s : String)
  | setv (xs : List SVal)
  | rangev (lo hi : Int)
  | funv (ps : List String) (body : SAst)

/-- Failure modes of the modelled evaluator: unbound variable
(`EvaluationError`), `TypeError` (domain mismatch, arity mismatch, bad
range bounds), division by zero, and fuel exhaustion (an artefact of the
embedding; user-written recursion may legitimately diverge). -/
inductive SErr where
  | fuel
  | evalErr (n : String)
  | typeErr
  | zeroDiv
  deriving DecidableEq, Repr

/-- An unambiguous textual key for an AST, used to compare function
bodies structurally (two function values are the same value exactly when
they print to the same key). -/
def astKey : SAst → String
  | .lit (.int i) => "(li " ++ toString i ++ ")"
  | .lit (.float q) => "(lq " ++ toString q.num ++ " " ++ toString q.den ++ ")"
  | .lit (.bool b) => "(lb " ++ toString b ++ ")"
  | .lit (.str s) => "(ls " ++ s ++ ")"
  | .varRef n => "(v " ++ n ++ ")"
  | .bin o l r =>
    let t := match o with
      | .add => "add" | .sub => "sub" | .mul => "mul" | .div => "div"
    "(b " ++ t ++ " " ++ astKey l ++ " " ++ astKey r ++ ")"
  | .eqTest l r => "(e " ++ astKey l ++ " " ++ astKey r ++ ")"
  | .cond c t e => "(c " ++ astKey c ++ " " ++ astKey t ++ " " ++ astKey e ++ ")"
  | .funLit ps b => "(f " ++ String.intercalate " " ps ++ " . " ++ astKey b ++ ")"
  | .app f args =>
    "(a " ++ astKey f ++ " " ++
      String.intercalate " " (args.attach.map (fun p => astKey p.1)) ++ ")"
  | .enumLit es =>
    "(n " ++ String.intercalate " " (es.attach.map (fun p => astKey p.1)) ++ ")"
  | .rangeLit lo hi => "(r " ++ astKey lo ++ " " ++ astKey hi ++ ")"
  | .compr b n s => "(m " ++ n ++ " " ++ astKey b ++ " " ++ astKey s ++ ")"
termination_by a => sizeOf a
decreasing_by all_goals
  simp_wf <;>
  first
    | omega
    | (have h := List.sizeOf_lt_of_mem p.2; omega)

/-- Modelled from the spec: the elements that materialize an integer
range `[lower, upper)`. -/
def rangeElems (lo hi : Int) : List SVal :=
  (List.range (hi - lo).toNat).map (fun k => .int (lo + k))

/-- Modelled from the spec (design note on extensional equality):
materialize every set-like value — replace each range by the set of its
elements, recursively — so that equality can be decided by element
membership alone, independently of which constructor produced the set. -/
def normalize : SVal → SVal
  | .setv xs => .setv (xs.attach.map (fun p => normalize p.1))
  | .rangev lo hi => .setv (rangeElems lo hi)
  | .int i => .int i
  | .float q => .float q
  | .bool b => .bool b
  | .str s => .str s
  | .funv ps b => .funv ps b
termination_by v => sizeOf v
decreasing_by
  simp_wf
  have h := List.sizeOf_lt_of_mem p.2
  omega

mutual
/-- Value equality on materialized values: numbers compare across `int`
and `float` through the rationals, strings and booleans by content,
function values by their parameters and body, and sets extensionally
(mutual inclusion of their element lists, elements compared by this very
equality).  `rangev` does not occur in materialized values; the
structural bound comparison keeps the function total. -/
def nveq : SVal → SVal → Bool
  | .int a, .int b => a == b
  | .int a, .float q => (a : Rat) == q
  | .float q, .int a => q == (a : Rat)
  | .float p, .float q => p == q
  | .bool a, .bool b => a == b
  | .str a, .str b => a == b
  | .funv ps b, .funv qs c => ps == qs && astKey b == astKey c
  | .setv xs, .setv ys => nvincl xs ys && nvincl ys xs
  | .rangev a b, .rangev c d => a == c && b == d
  | _, _ => false
termination_by v w => sizeOf v + sizeOf w
decreasing_by all_goals (simp_wf <;> omega)

/-- Membership of a value in an element list, up to `nveq`. -/
def nvmem : SVal → List SVal → Bool
  | _, [] => false
  | x, y :: ys => nveq x y || nvmem x ys
termination_by x ys => sizeOf x + sizeOf ys
decreasing_by all_goals (simp_wf <;> omega)

/-- Inclusion of one element list in another, up to `nveq`. -/
def nvincl : List SVal → List SVal → Bool
  | [], _ => true
  | x :: xs, ys => nvmem x ys && nvincl xs ys
termination_by xs ys => sizeOf xs + sizeOf ys
decreasing_by all_goals (simp_wf <;> omega)
end

/-- Modelled from the spec: extensional equality of values, decided on
the materialized forms (this is the equality/hash contract of the design
notes: compare by materialized element membership, never by constructor,
order or position). -/
def veq (v w : SVal) : Bool := nveq (normalize v) (normalize w)

/-- Membership of a value in a set-like value, decided on materialized
forms; `false` on a non-set value. -/
def svMem (x v : SVal) : Bool :=
  match normalize v with
  | .setv l => nvmem (normalize x) l
  | _ => false

/-- Membership of a value in an already-collected element list, up to
`veq`. -/
def sMemB : List SVal → SVal → Bool
  | [], _ => false
  | w :: ws, v => veq w v || sMemB ws v

/-- Insert with deduplication up to `veq`: the extensional-set
collection step of enumeration and comprehension evaluation. -/
def sDedup (vs : List SVal) : List SVal :=
  vs.foldl (fun acc v => if sMemB acc v then acc else acc ++ [v]) []

/-- The numeric reading of a value, when it has one. -/
def numQ : SVal → Option Rat
  | .int i => some (i : Rat)
  | .float q => some q
  | _ => none

def isSetLike : SVal → Bool
  | .setv _ => true
  | .rangev _ _ => true
  | _ => false

/-- Modelled from the spec: a predicate compares two fully evaluated
operands of the same logical domain (numeric, string, boolean or set)
and yields `Bool`; mixing incomparable domains is a `TypeError`.  Set
operands are compared extensionally with `veq`. -/
def sEqVal (a b : SVal) : Except SErr SVal :=
  match numQ a, numQ b with
  | some x, some y => .ok (.bool (x == y))
  | _, _ =>
    match a, b with
    | .str x, .str y => .ok (.bool (x == y))
    | .bool x, .bool y => .ok (.bool (x == y))
    | _, _ =>
      if isSetLike a && isSetLike b then .ok (.bool (veq a b))
      else .error .typeErr

/-- Modelled from the spec: arithmetic with the numeric promotion
invariant — `int op int` stays `int` for `+ - *`, any mix with `float`
is `float`, `/` always yields `float` and fails on a zero divisor;
non-numeric operands are a `TypeError`. -/
def sApplyBin : SBinOp → SVal → SVal → Except SErr SVal
  | .add, .int a, .int b => .ok (.int (a + b))
  | .sub, .int a, .int b => .ok (.int (a - b))
  | .mul, .int a, .int b => .ok (.int (a * b))
  | .div, a, b =>
    match numQ a, numQ b with
    | some x, some y => if y = 0 then .error .zeroDiv else .ok (.float (x / y))
    | _, _ => .error .typeErr
  | o, a, b =>
    match numQ a, numQ b with
    | some x, some y =>
      match o with
      | .add => .ok (.float (x + y))
      | .sub => .ok (.float (x - y))
      | .mul => .ok (.float (x * y))
      | .div => .error .typeErr
    | _, _ => .error .typeErr

/-- The element list of a set-like value, ranges materialized. -/
def sElems : SVal → Option (List SVal)
  | .setv xs => some xs
  | .rangev lo hi => some (rangeElems lo hi)
  | _ => none

abbrev SCtx := List (String × SVal)

def sctxFind (ctx : SCtx) (n : String) : Option SVal :=
  match ctx.find? (fun p => p.1 == n) with
  | some p => some p.2
  | none => none

mutual
/-- Modelled from the spec (section 4.4): the evaluator.  A variable is
looked up in the context (`EvaluationError` when absent); the ternary
conditional evaluates its condition and then only the taken branch; a
function literal evaluates to a function value; an application evaluates
the callee and all arguments under the caller context, fails with a
`TypeError` when the argument count differs from the parameter count,
and evaluates the body under the fresh parameter context alone (the
dynamic self-reference mechanism for recursive bindings is not needed by
the claims and is not modelled); an enumeration evaluates its elements
and collects them into an extensional set; a range literal requires
integral bounds with `lower < upper`; a comprehension materializes its
source set and evaluates the body once per element under a nested
context.  The fuel argument bounds recursion depth. -/
def evalS : Nat → SAst → SCtx → Except SErr SVal
  | 0, _, _ => .error .fuel
  | _ + 1, .lit (.int i), _ => .ok (.int i)
  | _ + 1, .lit (.float q), _ => .ok (.float q)
  | _ + 1, .lit (.bool b), _ => .ok (.bool b)
  | _ + 1, .lit (.str s), _ => .ok (.str s)
  | _ + 1, .varRef n, ctx =>
    match sctxFind ctx n with
    | some v => .ok v
    | none => .error (.evalErr n)
  | n + 1, .bin o l r, ctx => do
    let vl ← evalS n l ctx
    let vr ← evalS n r ctx
    sApplyBin o vl vr
  | n + 1, .eqTest l r, ctx => do
    let vl ← evalS n l ctx
    let vr ← evalS n r ctx
    sEqVal vl vr
  | n + 1, .cond c t e, ctx => do
    let vc ← evalS n c ctx
    match vc with
    | .bool true => evalS n t ctx
    | .bool false => evalS n e ctx
    | _ => .error .typeErr
  | _ + 1, .funLit ps b, _ => .ok (.funv ps b)
  | n + 1, .app f args, ctx => do
    let vf ← evalS n f ctx
    let vargs ← evalArgs n args ctx
    match vf with
    | .funv ps b =>
      if ps.length = vargs.length then evalS n b (ps.zip vargs)
      else .error .typeErr
    | _ => .error .typeErr
  | n + 1, .enumLit es, ctx => do
    let vs ← evalArgs n es ctx
    .ok (.setv (sDedup vs))
  | n + 1, .rangeLit lo hi, ctx => do
    let vl ← evalS n lo ctx
    let vh ← evalS n hi ctx
    match vl, vh with
    | .int a, .int b => if a < b then .ok (.rangev a b) else .error .typeErr
    | _, _ => .error .typeErr
  | n + 1, .compr body x src, ctx => do
    let vs ← evalS n src ctx
    match sElems vs with
    | some elems => do
      let rs ← evalOver n body x elems ctx
      .ok (.setv (sDedup rs))
    | none => .error .typeErr

/-- Evaluate a list of expressions left to right under one context. -/
def evalArgs : Nat → List SAst → SCtx → Except SErr (List SVal)
  | 0, _, _ => .error .fuel
  | _ + 1, [], _ => .ok []
  | n + 1, e :: es, ctx => do
    let v ← evalS n e ctx
    let vs ← evalArgs n es ctx
    .ok (v :: vs)

/-- Evaluate a comprehension body once per source element, each time
under a fresh nested context binding the comprehension variable. -/
def evalOver : Nat → SAst → String → List SVal → SCtx → Except SErr (List SVal)
  | 0, _, _, _, _ => .error .fuel
  | _ + 1, _, _, [], _ => .ok []
  | n + 1, body, x, v :: vs, ctx => do
    let r ← evalS n body ((x, v) :: ctx)
    let rs ← evalOver n body x vs ctx
    .ok (r :: rs)
end

/-- Dynamic type tags of the modelled values. -/
inductive STy where
  | int
  | float
  | bool
  | str
  | setTy
  | rangeTy
  | funTy
  deriving DecidableEq, Repr

def sTyOf : SVal → STy
  | .int _ => .int
  | .float _ => .float
  | .bool _ => .bool
  | .str _ => .str
  | .setv _ => .setTy
  | .rangev _ _ => .rangeTy
  | .funv _ _ => .funTy

/-- Modelled from the spec: evaluate a closed program and report the
dynamic type of the result, as `evaluate_program` does.  The fuel is
ample for every program considered here. -/
def evalProgram (p : SAst) : Except SErr (STy × SVal) :=
  match evalS 64 p [] with
  | .ok v => .ok (sTyOf v, v)
  | .error e => .error e

end YaffelSpec

namespace Yaffel

/-- Bind on an `ok` value reduces to the continuation. -/
theorem ybind_ok {α β : Type} (a : α) (f : α → Except YErr β) :
    (Except.ok a : Except YErr α) >>= f = f a := rfl

/-- Bind on an error propagates the error. -/
theorem ybind_err {α β : Type} (e : YErr) (f : α → Except YErr β) :
    (Except.error e : Except YErr α) >>= f = Except.error e := rfl

/-- Bind with the trivial continuation is the identity. -/
theorem ybind_pure {α : Type} (x : Except YErr α) :
    x >>= (fun a => (Except.ok a : Except YErr α)) = x := by
  cases x <;> rfl

/-- Parsing two number tokens joined by `+` yields the expected
`make_function` nesting with both literals converted by `make_number`. -/
theorem exprP_add (n : Nat) (s1 s2 : String) :
    expressionP (n + 5) [⟨.number, s1⟩, ⟨.op, "+"⟩, ⟨.number, s2⟩]
      = .ok (Term.func (.func (.func (.val (makeNumber s1)) []) [])
          [(.add, .func (.func (.val (makeNumber s2)) []) [])], []) := rfl

/-- As `exprP_add`, for `-`. -/
theorem exprP_sub (n : Nat) (s1 s2 : String) :
    expressionP (n + 5) [⟨.number, s1⟩, ⟨.op, "-"⟩, ⟨.number, s2⟩]
      = .ok (Term.func (.func (.func (.val (makeNumber s1)) []) [])
          [(.sub, .func (.func (.val (makeNumber s2)) []) [])], []) := rfl

/-- As `exprP_add`, for the bitwise `and` (same lowest precedence tier). -/
theorem exprP_and (n : Nat) (s1 s2 : String) :
    expressionP (n + 5) [⟨.number, s1⟩, ⟨.op, "and"⟩, ⟨.number, s2⟩]
      = .ok (Term.func (.func (.func (.val (makeNumber s1)) []) [])
          [(.bitand, .func (.func (.val (makeNumber s2)) []) [])], []) := rfl

/-- As `exprP_add`, for the bitwise `or`. -/
theorem exprP_or (n : Nat) (s1 s2 : String) :
    expressionP (n + 5) [⟨.number, s1⟩, ⟨.op, "or"⟩, ⟨.number, s2⟩]
      = .ok (Term.func (.func (.func (.val (makeNumber s1)) []) [])
          [(.bitor, .func (.func (.val (makeNumber s2)) []) [])], []) := rfl

/-- Division binds at the `term` tier: the chain lives one level deeper. -/
theorem exprP_div (n : Nat) (s1 s2 : String) :
    expressionP (n + 5) [⟨.number, s1⟩, ⟨.op, "/"⟩, ⟨.number, s2⟩]
      = .ok (Term.func (.func (.func (.val (makeNumber s1)) [])
          [(.div, .func (.val (makeNumber s2)) [])]) [], []) := rfl

/-- A double exponentiation is parsed as one flattened chain at the
`factor` tier: head `s1` followed by the ordered pairs `(pow, s2)`,
`(pow, s3)`. -/
theorem exprP_pow3 (n : Nat) (s1 s2 s3 : String) :
    expressionP (n + 6)
        [⟨.number, s1⟩, ⟨.op, "**"⟩, ⟨.number, s2⟩, ⟨.op, "**"⟩, ⟨.number, s3⟩]
      = .ok (Term.func (.func (.func (.val (makeNumber s1))
          [(.pow, .val (makeNumber s2)), (.pow, .val (makeNumber s3))]) []) [], []) := rfl

/-- Evaluating a parsed lowest-tier binary chain applies the operator to
the two constants. -/
theorem valueOf_tier1 (o : Op) (x y : Val) (ctx : Ctx) :
    valueOf (.func (.func (.func (.val x) []) [])
        [(o, .func (.func (.val y) []) [])]) ctx = applyOp o x y := by
  simp [valueOf, chain, ybind_ok, ybind_pure]

/-- Evaluating a parsed `term`-tier binary chain applies the operator to
the two constants. -/
theorem valueOf_tier2 (o : Op) (x y : Val) (ctx : Ctx) :
    valueOf (.func (.func (.func (.val x) [])
        [(o, .func (.val y) [])]) []) ctx = applyOp o x y := by
  simp [valueOf, chain, ybind_ok, ybind_pure]

/-- Evaluating a parsed two-step exponentiation chain folds left to
right: first `x ** y`, then the result `** z`. -/
theorem valueOf_pow3 (x y z : Val) (ctx : Ctx) :
    valueOf (.func (.func (.func (.val x)
        [(.pow, .val y), (.pow, .val z)]) []) []) ctx
      = (applyOp .pow x y) >>= (fun c => applyOp .pow c z) := by
  simp [valueOf, chain, ybind_ok, ybind_pure]

end Yaffel

namespace Yaffel

/-- C2: the claim states that a range literal with `lower >= upper`
raises a `TypeError`-class failure at construction time.  The code does
not: `make_range` passes the evaluated bounds straight to
`Range.__init__`, which stores them without any comparison, so
`{1:0}` and `{1:1}` are returned as ordinary `Range` values.  Only the
success half of the claim holds (`{0:10}` evaluates to `Range(0, 10)`).
This theorem evaluates the code at the claimed failing inputs. -/
theorem c2_range_bounds_not_validated :
    parse "\x7b1:0\x7d" = .ok (.range, .range (.int 1) (.int 0))
  ∧ parse "\x7b1:1\x7d" = .ok (.range, .range (.int 1) (.int 1))
  ∧ parse "\x7b0:10\x7d" = .ok (.range, .range (.int 0) (.int 10))
  ∧ parse "\x7b-5:5\x7d" = .ok (.range, .range (.int (-5)) (.int 5)) :=
  ⟨rfl, rfl, rfl, rfl⟩

/-- C5: every same-precedence chain is evaluated by a left-to-right
fold; in particular exponentiation is left-associative.  For any number
literals denoting integers `a`, `b`, `c` (with nonnegative exponents so
the results stay integers), `a ** b ** c` evaluates to `(a ^ b) ^ c`,
and the two concrete programs of the claim evaluate to `(Int, 64)` and
`(Int, 256)` respectively. -/
theorem c5_power_left_associative (n : Nat) (s1 s2 s3 : String) (a : Int) (b c : Nat)
    (h1 : makeNumber s1 = .int a) (h2 : makeNumber s2 = .int b)
    (h3 : makeNumber s3 = .int c) :
    parseToksFuel (n + 10)
        [⟨.number, s1⟩, ⟨.op, "**"⟩, ⟨.number, s2⟩, ⟨.op, "**"⟩, ⟨.number, s3⟩]
      = .ok (.int, .int ((a ^ b) ^ c))
  ∧ parse "2 ** 2 ** 3" = .ok (.int, .int 64)
  ∧ parse "2 ** (2 ** 3)" = .ok (.int, .int 256) := by
  refine ⟨?_, rfl, rfl⟩
  simp only [parseToksFuel, yaffelGo, evaluableP]
  rw [show expressionP (n + 8)
        [⟨.number, s1⟩, ⟨.op, "**"⟩, ⟨.number, s2⟩, ⟨.op, "**"⟩, ⟨.number, s3⟩]
      = .ok (Term.func (.func (.func (.val (makeNumber s1))
          [(.pow, .val (makeNumber s2)), (.pow, .val (makeNumber s3))]) []) [], [])
    from exprP_pow3 (n + 2) s1 s2 s3]
  simp [evalExpr, valueOf_pow3, h1, h2, h3, applyOp, ybind_ok, tyOf,
    Int.toNat_natCast]

/-- Witness for C5 at `2 ** 2 ** 3`. -/
theorem c5_power_left_associative_witness :
    parseToksFuel 10 [⟨.number, "2"⟩, ⟨.op, "**"⟩, ⟨.number, "2"⟩, ⟨.op, "**"⟩, ⟨.number, "3"⟩]
      = .ok (.int, .int 64) := by
  have h := (c5_power_left_associative 0 "2" "2" "3" 2 2 3 rfl rfl rfl).1
  simpa using h

/-- C6: for all integer literals, `a + b` evaluates to the integer sum;
`a / b` is `operator.truediv`: a `Float`-tagged exact quotient when the
divisor is nonzero and a `ZeroDivisionError` when it is zero (stated as
one dividing case split); and the concrete programs behave accordingly. -/
theorem c6_integer_arithmetic (n : Nat) (s1 s2 : String) (a b : Int)
    (h1 : makeNumber s1 = .int a) (h2 : makeNumber s2 = .int b) :
    parseToksFuel (n + 10) [⟨.number, s1⟩, ⟨.op, "+"⟩, ⟨.number, s2⟩]
      = .ok (.int, .int (a + b))
  ∧ parseToksFuel (n + 10) [⟨.number, s1⟩, ⟨.op, "/"⟩, ⟨.number, s2⟩]
      = (if b = 0 then .error .zeroDiv
         else .ok (.float, .float ((a : Rat) / (b : Rat))))
  ∧ parse "1 + 2" = .ok (.int, .int 3)
  ∧ parse "7 / 2" = .ok (.float, .float (7 / 2))
  ∧ parse "1 / 0" = .error .zeroDiv := by
  refine ⟨?_, ?_, rfl, rfl, rfl⟩
  · simp only [parseToksFuel, yaffelGo, evaluableP]
    rw [show expressionP (n + 8) [⟨.number, s1⟩, ⟨.op, "+"⟩, ⟨.number, s2⟩]
        = .ok (Term.func (.func (.func (.val (makeNumber s1)) []) [])
            [(.add, .func (.func (.val (makeNumber s2)) []) [])], [])
      from exprP_add (n + 3) s1 s2]
    simp [evalExpr, valueOf_tier1, h1, h2, applyOp, ybind_ok, tyOf]
  · simp only [parseToksFuel, yaffelGo, evaluableP]
    rw [show expressionP (n + 8) [⟨.number, s1⟩, ⟨.op, "/"⟩, ⟨.number, s2⟩]
        = .ok (Term.func (.func (.func (.val (makeNumber s1)) [])
            [(.div, .func (.val (makeNumber s2)) [])]) [], [])
      from exprP_div (n + 3) s1 s2]
    by_cases hb : b = 0
    · simp [evalExpr, valueOf_tier2, h1, h2, applyOp, hb, ybind_ok, ybind_err, tyOf]
    · simp [evalExpr, valueOf_tier2, h1, h2, applyOp, hb, ybind_ok, ybind_err, tyOf]

/-- Witness for C6 at `7 / 2` (nonzero divisor) and `7 / 0`. -/
theorem c6_integer_arithmetic_witness :
    parseToksFuel 10 [⟨.number, "7"⟩, ⟨.op, "/"⟩, ⟨.number, "2"⟩]
      = .ok (.float, .float ((7 : Rat) / (2 : Rat)))
  ∧ parseToksFuel 10 [⟨.number, "7"⟩, ⟨.op, "/"⟩, ⟨.number, "0"⟩]
      = .error .zeroDiv := by
  constructor
  · have h := (c6_integer_arithmetic 0 "7" "2" 7 2 rfl rfl).2.1
    simpa using h
  · have h := (c6_integer_arithmetic 0 "7" "0" 7 0 rfl rfl).2.1
    simpa using h

/-- C7: binding initializers are evaluated independently of their
sibling bindings and of the name being (re)bound: the two scoping
programs of the claim evaluate to `(Int, 1)`; an initializer that
mentions a sibling of the same list fails with an unbound-variable
`EvaluationError`, as does an initializer that mentions the name it is
itself binding with no enclosing binding in scope. -/
theorem c7_binding_scope :
    parse "x for x = y for y = 1" = .ok (.int, .int 1)
  ∧ parse "x for x = x for x = 1" = .ok (.int, .int 1)
  ∧ parse "y for x = 1, y = x" = .error (.evalErr "x")
  ∧ parse "x for x = x" = .error (.evalErr "x") :=
  ⟨rfl, rfl, rfl, rfl⟩

/-- C9: `and` and `or` are `operator.and_`/`operator.or_`, the bitwise
integer operations: for all integer literals the result is the bitwise
combination (`1 and 2` is `(int, 0)`); both operands are always
evaluated, so an error in the right operand propagates even when the
left operand alone would decide the logical result (`1 or x` with `x`
unbound raises, where boolean short-circuit would return `1`). -/
theorem c9_bitwise_non_short_circuit (n : Nat) (s1 s2 : String) (a b : Int)
    (h1 : makeNumber s1 = .int a) (h2 : makeNumber s2 = .int b) :
    parseToksFuel (n + 10) [⟨.number, s1⟩, ⟨.op, "and"⟩, ⟨.number, s2⟩]
      = .ok (.int, .int (Int.land a b))
  ∧ parseToksFuel (n + 10) [⟨.number, s1⟩, ⟨.op, "or"⟩, ⟨.number, s2⟩]
      = .ok (.int, .int (Int.lor a b))
  ∧ parse "1 and 2" = .ok (.int, .int 0)
  ∧ parse "1 or x" = .error (.evalErr "x")
  ∧ (∀ (o : Op) (v : Val) (bt : Term) (ctx : Ctx) (err : YErr),
      valueOf bt ctx = .error err → chain v [(o, bt)] ctx = .error err) := by
  refine ⟨?_, ?_, rfl, rfl, ?_⟩
  · simp only [parseToksFuel, yaffelGo, evaluableP]
    rw [show expressionP (n + 8) [⟨.number, s1⟩, ⟨.op, "and"⟩, ⟨.number, s2⟩]
        = .ok (Term.func (.func (.func (.val (makeNumber s1)) []) [])
            [(.bitand, .func (.func (.val (makeNumber s2)) []) [])], [])
      from exprP_and (n + 3) s1 s2]
    simp [evalExpr, valueOf_tier1, h1, h2, applyOp, ybind_ok, tyOf]
  · simp only [parseToksFuel, yaffelGo, evaluableP]
    rw [show expressionP (n + 8) [⟨.number, s1⟩, ⟨.op, "or"⟩, ⟨.number, s2⟩]
        = .ok (Term.func (.func (.func (.val (makeNumber s1)) []) [])
            [(.bitor, .func (.func (.val (makeNumber s2)) []) [])], [])
      from exprP_or (n + 3) s1 s2]
    simp [evalExpr, valueOf_tier1, h1, h2, applyOp, ybind_ok, tyOf]
  · intro o v bt ctx err herr
    simp [chain, herr, ybind_err]

/-- Witness for C9 at `1 and 2` and at a right operand that is an
unbound variable. -/
theorem c9_bitwise_non_short_circuit_witness :
    parseToksFuel 10 [⟨.number, "1"⟩, ⟨.op, "and"⟩, ⟨.number, "2"⟩]
      = .ok (.int, .int 0)
  ∧ chain (.int 1) [(.bitor, .name "x")] [] = .error (.evalErr "x") := by
  constructor
  · have h := (c9_bitwise_non_short_circuit 0 "1" "2" 1 2 rfl rfl).1
    simpa using h
  · exact (c9_bitwise_non_short_circuit 0 "1" "2" 1 2 rfl rfl).2.2.2.2
      .bitor (.int 1) (.name "x") [] (.evalErr "x") rfl

end Yaffel

namespace Yaffel

/-- The duplicate test of `make_context` reads as key membership. -/
theorem any_key_eq_mem (acc : Ctx) (k : String) :
    (acc.any (fun p => p.1 == k) = true) ↔ k ∈ acc.map Prod.fst := by
  simp [List.any_eq_true, List.mem_map, beq_iff_eq]

/-- The insertion loop of `make_context` succeeds from a duplicate-free
accumulator exactly when the accumulated keys together with the incoming
keys are pairwise distinct. -/
theorem makeContextGo_ok_iff (t : List (String × Val)) (acc : Ctx)
    (hacc : (acc.map Prod.fst).Nodup) :
    (∃ c, makeContextGo acc t = .ok c)
      ↔ ((acc.map Prod.fst) ++ t.map Prod.fst).Nodup := by
  induction t generalizing acc with
  | nil => simpa [makeContextGo] using hacc
  | cons p rest ih =>
    obtain ⟨k, v⟩ := p
    by_cases hk : (acc.any (fun q => q.1 == k)) = true
    · have hmem : k ∈ acc.map Prod.fst := (any_key_eq_mem acc k).1 hk
      have hred : makeContextGo acc ((k, v) :: rest)
          = .error (.evalErr (k ++ " is already bound")) := by
        simp [makeContextGo, hk]
      rw [hred]
      constructor
      · rintro ⟨c, hc⟩
        cases hc
      · intro hnd
        rw [List.nodup_append] at hnd
        exact absurd (hnd.2.2 hmem (by simp)) (by simp)
    · have hnm : k ∉ acc.map Prod.fst := fun hm => hk ((any_key_eq_mem acc k).2 hm)
      have hacc' : ((acc ++ [(k, v)]).map Prod.fst).Nodup := by
        rw [List.map_append, List.nodup_append]
        refine ⟨hacc, by simp, ?_⟩
        intro x hx hx2
        simp only [List.map_cons, List.map_nil, List.mem_singleton] at hx2
        exact hnm (hx2 ▸ hx)
      have hred : makeContextGo acc ((k, v) :: rest)
          = makeContextGo (acc ++ [(k, v)]) rest := by
        simp [makeContextGo, hk]
      rw [hred, ih (acc ++ [(k, v)]) hacc', List.map_append, List.append_assoc]
      simp

/-- Any failure of the `make_context` insertion loop is an
`EvaluationError`. -/
theorem makeContextGo_err (t : List (String × Val)) (acc : Ctx) (e : YErr)
    (h : makeContextGo acc t = .error e) : ∃ m, e = .evalErr m := by
  induction t generalizing acc with
  | nil => cases h
  | cons p rest ih =>
    obtain ⟨k, v⟩ := p
    by_cases hk : (acc.any (fun q => q.1 == k)) = true
    · have hred : makeContextGo acc ((k, v) :: rest)
          = .error (.evalErr (k ++ " is already bound")) := by
        simp [makeContextGo, hk]
      rw [hred] at h
      cases h
      exact ⟨_, rfl⟩
    · have hred : makeContextGo acc ((k, v) :: rest)
          = makeContextGo (acc ++ [(k, v)]) rest := by
        simp [makeContextGo, hk]
      rw [hred] at h
      exact ih _ h

/-- C8: building a context from a `for`-clause binding list succeeds
exactly when the bound names are pairwise distinct; with a repeated name
the failure is an `EvaluationError` (never a silent override), and the
full pipeline agrees on a program with a duplicated binding. -/
theorem c8_duplicate_binding (hd : String × Val) (tl : List (String × Val)) :
    ((∃ c, makeContext hd tl = .ok c) ↔ (hd.1 :: tl.map Prod.fst).Nodup)
  ∧ (¬(hd.1 :: tl.map Prod.fst).Nodup →
      ∃ m, makeContext hd tl = .error (.evalErr m))
  ∧ parse "x for x = 1, x = 2" = .error (.evalErr "x is already bound") := by
  have key : (∃ c, makeContext hd tl = .ok c) ↔ (hd.1 :: tl.map Prod.fst).Nodup := by
    have h := makeContextGo_ok_iff tl [hd] (by simp)
    simpa [makeContext] using h
  refine ⟨key, ?_, rfl⟩
  intro hnd
  rcases he : makeContext hd tl with e | c
  · obtain ⟨m, rfl⟩ := makeContextGo_err tl [hd] e he
    exact ⟨m, rfl⟩
  · exact absurd (key.1 ⟨c, he⟩) hnd

/-- Witness for C8: the duplicated list `x, x` is rejected with an
`EvaluationError`. -/
theorem c8_duplicate_binding_witness :
    ¬((("x", Val.int 1).1 :: [("x", Val.int 2)].map Prod.fst).Nodup)
  ∧ ∃ m, makeContext ("x", Val.int 1) [("x", Val.int 2)] = .error (.evalErr m) := by
  constructor
  · decide
  · exact (c8_duplicate_binding ("x", .int 1) [("x", .int 2)]).2.1 (by decide)

end Yaffel

namespace YaffelSpec

/-- Bind on an `ok` value reduces to the continuation. -/
theorem sbind_ok {ε α β : Type} (a : α) (f : α → Except ε β) :
    (Except.ok a : Except ε α) >>= f = f a := rfl

/-- Bind on an error propagates the error. -/
theorem sbind_err {ε α β : Type} (e : ε) (f : α → Except ε β) :
    (Except.error e : Except ε α) >>= f = Except.error e := rfl

/-- Atoms are fixed by materialization. -/
theorem normalize_int (i : Int) : normalize (.int i) = .int i := by
  simp [normalize]

/-- Materializing a set materializes its elements. -/
theorem normalize_setv (xs : List SVal) :
    normalize (.setv xs) = .setv (xs.map normalize) := by
  simp [normalize]

/-- Materializing a range lists its elements. -/
theorem normalize_rangev (lo hi : Int) :
    normalize (.rangev lo hi) = .setv (rangeElems lo hi) := by
  simp [normalize]

theorem nveq_int_int (a b : Int) : nveq (.int a) (.int b) = (a == b) := by
  simp [nveq]

theorem nveq_setv_setv (xs ys : List SVal) :
    nveq (.setv xs) (.setv ys) = (nvincl xs ys && nvincl ys xs) := by
  simp [nveq]

theorem nvmem_nil (x : SVal) : nvmem x [] = false := by simp [nvmem]

theorem nvmem_cons (x y : SVal) (ys : List SVal) :
    nvmem x (y :: ys) = (nveq x y || nvmem x ys) := by simp [nvmem]

theorem nvincl_nil (ys : List SVal) : nvincl [] ys = true := by simp [nvincl]

theorem nvincl_cons (x : SVal) (xs ys : List SVal) :
    nvincl (x :: xs) ys = (nvmem x ys && nvincl xs ys) := by simp [nvincl]

/-- Membership up to `nveq` read as an existential. -/
theorem nvmem_iff (x : SVal) (ys : List SVal) :
    nvmem x ys = true ↔ ∃ y ∈ ys, nveq x y = true := by
  induction ys with
  | nil => simp [nvmem_nil]
  | cons y ys ih => simp [nvmem_cons, ih, Bool.or_eq_true]

/-- Inclusion up to `nveq` read as a universal. -/
theorem nvincl_iff (xs ys : List SVal) :
    nvincl xs ys = true ↔ ∀ x ∈ xs, nvmem x ys = true := by
  induction xs with
  | nil => simp [nvincl_nil]
  | cons x xs ih => simp [nvincl_cons, ih, Bool.and_eq_true]

/-- `nveq` is reflexive (strong induction on the value size). -/
theorem nveq_refl_aux : ∀ (n : Nat) (v : SVal), sizeOf v ≤ n → nveq v v = true := by
  intro n
  induction n using Nat.strong_induction_on with
  | _ n ih =>
    intro v hv
    cases v with
    | setv xs =>
      rw [nveq_setv_setv]
      have hincl : nvincl xs xs = true := by
        rw [nvincl_iff]
        intro x hx
        rw [nvmem_iff]
        refine ⟨x, hx, ?_⟩
        have hlt : sizeOf x < sizeOf (SVal.setv xs) := by
          have := List.sizeOf_lt_of_mem hx
          simp
          omega
        exact ih (sizeOf x) (lt_of_lt_of_le hlt hv) x le_rfl
      simp [hincl]
    | int i => simp [nveq]
    | float q => simp [nveq]
    | bool b => simp [nveq]
    | str s => simp [nveq]
    | rangev lo hi => simp [nveq]
    | funv ps b => simp [nveq]

theorem nveq_refl (v : SVal) : nveq v v = true := nveq_refl_aux (sizeOf v) v le_rfl

/-- `nveq` is transitive (strong induction on the combined size; set
elements chain through the element lists). -/
theorem nveq_trans_aux : ∀ (n : Nat) (a b c : SVal),
    sizeOf a + sizeOf b + sizeOf c ≤ n →
    nveq a b = true → nveq b c = true → nveq a c = true := by
  intro n
  induction n using Nat.strong_induction_on with
  | _ n ih =>
    intro a b c hn h1 h2
    cases a <;> cases b <;> cases c <;>
      first
      | (rw [nveq.eq_def] at h1; exact Bool.noConfusion h1)
      | (rw [nveq.eq_def] at h2; exact Bool.noConfusion h2)
      | skip
    all_goals rw [nveq.eq_def] at h1 h2 ⊢
    all_goals simp only [Bool.and_eq_true, beq_iff_eq] at h1 h2 ⊢
    all_goals try exact h1.trans h2
    all_goals try exact_mod_cast h1.trans h2
    all_goals try (subst h1; exact h2)
    all_goals try (subst h2; exact h1)
    all_goals try exact ⟨h1.1.trans h2.1, h1.2.trans h2.2⟩
    next xs ys zs =>
      obtain ⟨h1a, h1b⟩ := h1
      obtain ⟨h2a, h2b⟩ := h2
      have hsz : sizeOf (SVal.setv xs) + sizeOf (SVal.setv ys)
          + sizeOf (SVal.setv zs) ≤ n := hn
      simp only [SVal.setv.sizeOf_spec] at hsz
      constructor
      · rw [nvincl_iff] at h1a h2a ⊢
        intro x hx
        obtain ⟨y, hy, hxy⟩ := (nvmem_iff x ys).1 (h1a x hx)
        obtain ⟨z, hz, hyz⟩ := (nvmem_iff y zs).1 (h2a y hy)
        refine (nvmem_iff x zs).2 ⟨z, hz, ?_⟩
        have hx' := List.sizeOf_lt_of_mem hx
        have hy' := List.sizeOf_lt_of_mem hy
        have hz' := List.sizeOf_lt_of_mem hz
        exact ih (sizeOf x + sizeOf y + sizeOf z) (by omega) x y z le_rfl hxy hyz
      · rw [nvincl_iff] at h1b h2b ⊢
        intro z hz
        obtain ⟨y, hy, hzy⟩ := (nvmem_iff z ys).1 (h2b z hz)
        obtain ⟨x, hx, hyx⟩ := (nvmem_iff y xs).1 (h1b y hy)
        refine (nvmem_iff z xs).2 ⟨x, hx, ?_⟩
        have hx' := List.sizeOf_lt_of_mem hx
        have hy' := List.sizeOf_lt_of_mem hy
        have hz' := List.sizeOf_lt_of_mem hz
        exact ih (sizeOf z + sizeOf y + sizeOf x) (by omega) z y x le_rfl hzy hyx

theorem nveq_trans (a b c : SVal) (h1 : nveq a b = true) (h2 : nveq b c = true) :
    nveq a c = true :=
  nveq_trans_aux (sizeOf a + sizeOf b + sizeOf c) a b c le_rfl h1 h2

/-- Two materialized sets are `nveq`-equal exactly when they have the
same members (up to `nveq`): extensionality. -/
theorem nveq_setv_ext (L M : List SVal) :
    nveq (.setv L) (.setv M) = true ↔ ∀ x, nvmem x L = nvmem x M := by
  rw [nveq_setv_setv, Bool.and_eq_true, nvincl_iff, nvincl_iff]
  constructor
  · rintro ⟨hLM, hML⟩ x
    cases hL : nvmem x L with
    | true =>
      obtain ⟨a, haL, hxa⟩ := (nvmem_iff x L).1 hL
      obtain ⟨b, hbM, hab⟩ := (nvmem_iff a M).1 (hLM a haL)
      exact ((nvmem_iff x M).2 ⟨b, hbM, nveq_trans x a b hxa hab⟩).symm
    | false =>
      cases hM : nvmem x M with
      | false => rfl
      | true =>
        obtain ⟨b, hbM, hxb⟩ := (nvmem_iff x M).1 hM
        obtain ⟨a, haL, hba⟩ := (nvmem_iff b L).1 (hML b hbM)
        have : nvmem x L = true :=
          (nvmem_iff x L).2 ⟨a, haL, nveq_trans x b a hxb hba⟩
        rw [hL] at this
        cases this
  · intro h
    constructor
    · intro a haL
      have h1 : nvmem a L = true := (nvmem_iff a L).2 ⟨a, haL, nveq_refl a⟩
      rw [← h a]
      exact h1
    · intro b hbM
      have h1 : nvmem b M = true := (nvmem_iff b M).2 ⟨b, hbM, nveq_refl b⟩
      rw [h b]
      exact h1

/-- Membership agreement tested on normalization images extends to all
values, provided every listed element is itself a normalization image. -/
theorem nvmem_ext_lift (L M : List SVal)
    (hL : ∀ a ∈ L, ∃ a0, normalize a0 = a) (hM : ∀ b ∈ M, ∃ b0, normalize b0 = b)
    (h : ∀ x, nvmem (normalize x) L = nvmem (normalize x) M) :
    ∀ x, nvmem x L = nvmem x M := by
  intro x
  cases hxL : nvmem x L with
  | true =>
    obtain ⟨a, haL, hxa⟩ := (nvmem_iff x L).1 hxL
    obtain ⟨a0, ha0⟩ := hL a haL
    have haL' : nvmem (normalize a0) L = true := by
      rw [ha0]
      exact (nvmem_iff a L).2 ⟨a, haL, nveq_refl a⟩
    have haM : nvmem (normalize a0) M = true := by
      rw [← h a0]
      exact haL'
    obtain ⟨b, hbM, hab⟩ := (nvmem_iff _ M).1 haM
    rw [ha0] at hab
    exact ((nvmem_iff x M).2 ⟨b, hbM, nveq_trans x a b hxa hab⟩).symm
  | false =>
    cases hxM : nvmem x M with
    | false => rfl
    | true =>
      obtain ⟨b, hbM, hxb⟩ := (nvmem_iff x M).1 hxM
      obtain ⟨b0, hb0⟩ := hM b hbM
      have hbM' : nvmem (normalize b0) M = true := by
        rw [hb0]
        exact (nvmem_iff b M).2 ⟨b, hbM, nveq_refl b⟩
      have hbL : nvmem (normalize b0) L = true := by
        rw [h b0]
        exact hbM'
      obtain ⟨a, haL, hba⟩ := (nvmem_iff _ L).1 hbL
      rw [hb0] at hba
      have : nvmem x L = true :=
        (nvmem_iff x L).2 ⟨a, haL, nveq_trans x b a hxb hba⟩
      rw [hxL] at this
      cases this

/-- Every element of a normalized set value is a normalization image. -/
theorem normSet_preimage (xs : List SVal) :
    ∀ a ∈ xs.map normalize, ∃ a0, normalize a0 = a := by
  intro a ha
  obtain ⟨a0, _, ha0⟩ := List.mem_map.1 ha
  exact ⟨a0, ha0⟩

/-- Every materialized range element is a normalization image. -/
theorem rangeElems_preimage (lo hi : Int) :
    ∀ a ∈ rangeElems lo hi, ∃ a0, normalize a0 = a := by
  intro a ha
  obtain ⟨k, _, hk⟩ := List.mem_map.1 ha
  exact ⟨a, by rw [← hk]; exact normalize_int _⟩

/-- Extensionality of `veq` for any two values whose materializations
are set values with materialization-image elements. -/
theorem veq_ext_master (v w : SVal) (L M : List SVal)
    (hv : normalize v = .setv L) (hw : normalize w = .setv M)
    (hL : ∀ a ∈ L, ∃ a0, normalize a0 = a) (hM : ∀ b ∈ M, ∃ b0, normalize b0 = b) :
    (veq v w = true ↔ ∀ x, svMem x v = svMem x w) := by
  rw [veq, hv, hw, nveq_setv_ext]
  constructor
  · intro h x
    rw [svMem, svMem, hv, hw]
    exact h (normalize x)
  · intro h
    refine nvmem_ext_lift L M hL hM ?_
    intro x
    have hx := h x
    rw [svMem, svMem, hv, hw] at hx
    exact hx

/-- C1: set equality is extensional.  The enumeration programs
`2,1 == 1,2` and `1,2 == 2,3` evaluate to `(Bool, True)` and
`(Bool, False)`; a comprehension-produced set and a range compare equal
to an enumeration with the same elements; and for every pair of set
values built by the set constructors (`setv` covers enumeration and
comprehension results, `rangev` the ranges), the equality predicate
holds exactly when the two values have the same members — never by
element order or position. -/
theorem c1_set_equality_extensional :
    evalProgram (.eqTest (.enumLit [.lit (.int 2), .lit (.int 1)])
        (.enumLit [.lit (.int 1), .lit (.int 2)])) = .ok (.bool, .bool true)
  ∧ evalProgram (.eqTest (.enumLit [.lit (.int 1), .lit (.int 2)])
        (.enumLit [.lit (.int 2), .lit (.int 3)])) = .ok (.bool, .bool false)
  ∧ evalProgram (.eqTest (.compr (.varRef "x") "x" (.enumLit [.lit (.int 1), .lit (.int 2)]))
        (.enumLit [.lit (.int 2), .lit (.int 1)])) = .ok (.bool, .bool true)
  ∧ evalProgram (.eqTest (.rangeLit (.lit (.int 1)) (.lit (.int 3)))
        (.enumLit [.lit (.int 1), .lit (.int 2)])) = .ok (.bool, .bool true)
  ∧ (∀ xs ys : List SVal,
      veq (.setv xs) (.setv ys) = true
        ↔ ∀ x, svMem x (.setv xs) = svMem x (.setv ys))
  ∧ (∀ (xs : List SVal) (lo hi : Int),
      veq (.setv xs) (.rangev lo hi) = true
        ↔ ∀ x, svMem x (.setv xs) = svMem x (.rangev lo hi))
  ∧ (∀ lo hi lo2 hi2 : Int,
      veq (.rangev lo hi) (.rangev lo2 hi2) = true
        ↔ ∀ x, svMem x (.rangev lo hi) = svMem x (.rangev lo2 hi2)) := by
  refine ⟨?_, ?_, ?_, ?_, ?_, ?_, ?_⟩
  · simp [evalProgram, evalS, evalArgs, sDedup, sMemB, sEqVal, veq, normalize_int,
      normalize_setv, nveq_int_int, nveq_setv_setv, nvmem_nil, nvmem_cons,
      nvincl_nil, nvincl_cons, numQ, isSetLike, sTyOf, sbind_ok, sbind_err]
  · simp [evalProgram, evalS, evalArgs, sDedup, sMemB, sEqVal, veq, normalize_int,
      normalize_setv, nveq_int_int, nveq_setv_setv, nvmem_nil, nvmem_cons,
      nvincl_nil, nvincl_cons, numQ, isSetLike, sTyOf, sbind_ok, sbind_err]
  · simp [evalProgram, evalS, evalArgs, evalOver, sDedup, sMemB, sEqVal, veq,
      normalize_int, normalize_setv, nveq_int_int, nveq_setv_setv, nvmem_nil,
      nvmem_cons, nvincl_nil, nvincl_cons, numQ, isSetLike, sElems, sctxFind,
      sTyOf, sbind_ok, sbind_err]
  · simp [evalProgram, evalS, evalArgs, sDedup, sMemB, sEqVal, veq, normalize_int,
      normalize_setv, normalize_rangev, rangeElems, nveq_int_int, nveq_setv_setv,
      nvmem_nil, nvmem_cons, nvincl_nil, nvincl_cons, numQ, isSetLike, sTyOf,
      sbind_ok, sbind_err, List.range_succ]
  · intro xs ys
    exact veq_ext_master _ _ _ _ (normalize_setv xs) (normalize_setv ys)
      (normSet_preimage xs) (normSet_preimage ys)
  · intro xs lo hi
    exact veq_ext_master _ _ _ _ (normalize_setv xs) (normalize_rangev lo hi)
      (normSet_preimage xs) (rangeElems_preimage lo hi)
  · intro lo hi lo2 hi2
    exact veq_ext_master _ _ _ _ (normalize_rangev lo hi) (normalize_rangev lo2 hi2)
      (rangeElems_preimage lo hi) (rangeElems_preimage lo2 hi2)

/-- C3: applying the anonymous function `[x: x + 1]` to `1` yields
`(Int, 2)`; applying `[x, y: x]` to the single argument `1` fails with
the `TypeError`-class arity failure. -/
theorem c3_anonymous_function_application :
    evalProgram (.app (.funLit ["x"] (.bin .add (.varRef "x") (.lit (.int 1))))
        [.lit (.int 1)]) = .ok (.int, .int 2)
  ∧ evalProgram (.app (.funLit ["x", "y"] (.varRef "x")) [.lit (.int 1)])
      = .error .typeErr :=
  ⟨rfl, rfl⟩

/-- C4: the ternary conditional evaluates the condition and only the
taken branch.  When the condition evaluates to true the result is the
result of the `if` branch for every untaken-branch expression `e`, and
symmetrically for false; concretely, an untaken division by zero and an
untaken unbound variable do not raise. -/
theorem c4_conditional_short_circuit (n : Nat) (c t e : SAst) (ctx : SCtx) :
    (evalS n c ctx = .ok (.bool true) →
      evalS (n + 1) (.cond c t e) ctx = evalS n t ctx)
  ∧ (evalS n c ctx = .ok (.bool false) →
      evalS (n + 1) (.cond c t e) ctx = evalS n e ctx)
  ∧ evalProgram (.cond (.lit (.bool true)) (.lit (.int 1))
      (.bin .div (.lit (.int 1)) (.lit (.int 0)))) = .ok (.int, .int 1)
  ∧ evalProgram (.cond (.lit (.bool false)) (.varRef "boom") (.lit (.int 2)))
      = .ok (.int, .int 2) := by
  refine ⟨?_, ?_, rfl, rfl⟩
  · intro h
    simp [evalS, h, sbind_ok]
  · intro h
    simp [evalS, h, sbind_ok]

/-- Witness for C4: a true condition selects the `if` branch even when
the `else` branch divides by zero. -/
theorem c4_conditional_short_circuit_witness :
    evalS 3 (SAst.lit (.bool true)) [] = .ok (.bool true)
  ∧ evalS 4 (.cond (.lit (.bool true)) (.lit (.int 7))
      (.bin .div (.lit (.int 1)) (.lit (.int 0)))) [] = evalS 3 (.lit (.int 7)) [] :=
  ⟨rfl, (c4_conditional_short_circuit 3 (.lit (.bool true)) (.lit (.int 7))
    (.bin .div (.lit (.int 1)) (.lit (.int 0))) []).1 rfl⟩

end YaffelSpec

namespace Yaffel

theorem not_dash_of_digit (c : Char) (h : c.isDigit = true) : c ≠ '-' := by
  intro hc
  rw [hc] at h
  exact absurd h (by decide)

theorem not_space_of_digit (c : Char) (h : c.isDigit = true) : isSpaceChar c = false := by
  cases heq : isSpaceChar c with
  | false => rfl
  | true =>
    simp only [isSpaceChar, Bool.or_eq_true, beq_iff_eq] at heq
    rcases heq with ((rfl | rfl) | rfl) | rfl <;> exact absurd h (by decide)

theorem takeWhile_append_not (p : Char → Bool) (xs ys : List Char)
    (hxs : ∀ x ∈ xs, p x = true) (hy : ∀ y ∈ ys.head?, p y = false) :
    (xs ++ ys).takeWhile p = xs := by
  induction xs with
  | nil =>
    cases ys with
    | nil => rfl
    | cons y ys =>
      have := hy y rfl
      simp [List.takeWhile_cons, this]
  | cons x xs ih =>
    have hx := hxs x (by simp)
    simp only [List.cons_append, List.takeWhile_cons, hx, if_true]
    rw [ih (fun a ha => hxs a (by simp [ha]))]

theorem dropWhile_append_not (p : Char → Bool) (xs ys : List Char)
    (hxs : ∀ x ∈ xs, p x = true) (hy : ∀ y ∈ ys.head?, p y = false) :
    (xs ++ ys).dropWhile p = ys := by
  induction xs with
  | nil =>
    cases ys with
    | nil => rfl
    | cons y ys =>
      have := hy y rfl
      simp [List.dropWhile_cons, this]
  | cons x xs ih =>
    have hx := hxs x (by simp)
    simp only [List.cons_append, List.dropWhile_cons, hx, if_true]
    exact ih (fun a ha => hxs a (by simp [ha]))

theorem isIntLitB_head_digit (c : Char) (tl : List Char)
    (h : isIntLitB (c :: tl) = true) : c.isDigit = true := by
  simp only [isIntLitB, Bool.or_eq_true, Bool.and_eq_true, beq_iff_eq] at h
  rcases h with ⟨rfl, _⟩ | ⟨⟨h1, _⟩, _⟩
  · decide
  · exact h1

theorem numTail_lit (d rest : List Char) (h : isIntLitB d = true)
    (hrest : ∀ x ∈ rest.head?, x.isDigit = false) :
    numTail (d ++ rest) = some (d, rest) := by
  cases d with
  | nil => simp [isIntLitB] at h
  | cons c tl =>
    simp only [isIntLitB, Bool.or_eq_true, Bool.and_eq_true, beq_iff_eq] at h
    rcases h with ⟨rfl, htl⟩ | ⟨⟨hd, hne0⟩, htl⟩
    · have : tl = [] := by simpa using htl
      subst this
      simp [numTail]
    · have htlall : ∀ x ∈ tl, Char.isDigit x = true := by
        simpa [List.all_eq_true] using htl
      have htake := takeWhile_append_not Char.isDigit tl rest htlall hrest
      have hdrop := dropWhile_append_not Char.isDigit tl rest htlall hrest
      have hne0' : (c == '0') = false := by simpa using hne0
      simp [numTail, hne0', hd, List.span_eq_take_drop, htake, hdrop]

theorem matchNumber_lit (d rest : List Char) (h : isIntLitB d = true)
    (hrest : ∀ x ∈ rest.head?, x.isDigit = false)
    (hfrac : fracPart rest = ([], rest)) (hexp : expPart rest = ([], rest)) :
    matchNumber (d ++ rest) = some (d, rest) := by
  obtain ⟨c, tl, rfl⟩ : ∃ c tl, d = c :: tl := by
    cases d with
    | nil => simp [isIntLitB] at h
    | cons c tl => exact ⟨c, tl, rfl⟩
  have hcd := isIntLitB_head_digit c tl h
  have hcdash : ¬(c = '-') := not_dash_of_digit c hcd
  have hnum := numTail_lit (c :: tl) rest h hrest
  simp only [List.cons_append] at hnum ⊢
  simp [matchNumber, numSign, hcdash, hnum, hfrac, hexp]

theorem matchNumber_dash_lit (d : List Char) (h : isIntLitB d = true) :
    matchNumber ('-' :: d) = some ('-' :: d, []) := by
  have hnum : numTail d = some (d, []) := by
    have h2 := numTail_lit d [] h (by simp)
    rw [List.append_nil] at h2
    exact h2
  simp [matchNumber, numSign, hnum, fracPart, expPart]


/-- Tokenizing an unspaced difference of two integer literals yields two
adjacent number tokens: the `-` is consumed as the sign of the second
literal. -/
theorem tokenizeGo_adjacent (m : Nat) (d1 d2 : List Char)
    (h1 : isIntLitB d1 = true) (h2 : isIntLitB d2 = true) :
    tokenizeGo (m + 3) (d1 ++ '-' :: d2)
      = .ok [⟨.number, String.mk d1⟩, ⟨.number, String.mk ('-' :: d2)⟩] := by
  obtain ⟨c1, tl1, rfl⟩ : ∃ c tl, d1 = c :: tl := by
    cases d1 with
    | nil => simp [isIntLitB] at h1
    | cons c tl => exact ⟨c, tl, rfl⟩
  have hns := not_space_of_digit c1 (isIntLitB_head_digit _ _ h1)
  have hmn1 : matchNumber ((c1 :: tl1) ++ '-' :: d2) = some (c1 :: tl1, '-' :: d2) :=
    matchNumber_lit _ _ h1 (by intro x hx; simp at hx; subst hx; decide) rfl
      (by cases d2 <;> simp [expPart])
  have hmn2 : matchNumber ('-' :: d2) = some ('-' :: d2, []) := matchNumber_dash_lit d2 h2
  simp only [tokenizeGo, List.headD, List.cons_append, List.append_eq, hns,
    Bool.false_eq_true, if_false]
  rw [show matchNumber (c1 :: (tl1 ++ '-' :: d2)) = some (c1 :: tl1, '-' :: d2) from
    (by simpa using hmn1)]
  simp [tokenizeGo, hmn2, isSpaceChar, ybind_ok]


/-- Tokenizing the spaced difference of two integer literals yields
number, minus-operator, number. -/
theorem tokenizeGo_spaced (m : Nat) (d1 d2 : List Char)
    (h1 : isIntLitB d1 = true) (h2 : isIntLitB d2 = true) :
    tokenizeGo (m + 6) (d1 ++ ' ' :: '-' :: ' ' :: d2)
      = .ok [⟨.number, String.mk d1⟩, ⟨.op, "-"⟩, ⟨.number, String.mk d2⟩] := by
  obtain ⟨c1, tl1, rfl⟩ : ∃ c tl, d1 = c :: tl := by
    cases d1 with
    | nil => simp [isIntLitB] at h1
    | cons c tl => exact ⟨c, tl, rfl⟩
  obtain ⟨c2, tl2, rfl⟩ : ∃ c tl, d2 = c :: tl := by
    cases d2 with
    | nil => simp [isIntLitB] at h2
    | cons c tl => exact ⟨c, tl, rfl⟩
  have hns1 := not_space_of_digit c1 (isIntLitB_head_digit _ _ h1)
  have hns2 := not_space_of_digit c2 (isIntLitB_head_digit _ _ h2)
  have hmn1 : matchNumber ((c1 :: tl1) ++ ' ' :: '-' :: ' ' :: c2 :: tl2)
      = some (c1 :: tl1, ' ' :: '-' :: ' ' :: c2 :: tl2) :=
    matchNumber_lit _ _ h1 (by intro x hx; simp at hx; subst hx; decide) rfl rfl
  have hmn2 : matchNumber ((c2 :: tl2) ++ ([] : List Char)) = some (c2 :: tl2, []) :=
    matchNumber_lit _ _ h2 (by simp) rfl rfl
  rw [List.append_nil] at hmn2
  -- step 1: the first number token
  simp only [tokenizeGo, List.headD, List.cons_append, List.append_eq, hns1,
    Bool.false_eq_true, if_false]
  rw [show matchNumber (c1 :: (tl1 ++ ' ' :: '-' :: ' ' :: c2 :: tl2))
      = some (c1 :: tl1, ' ' :: '-' :: ' ' :: c2 :: tl2) from (by simpa using hmn1)]
  -- steps 2 to 5: skip the space run, take the minus operator, skip the
  -- next space run, take the second number token, finish at end of input
  have hmnone : matchNumber ('-' :: ' ' :: c2 :: tl2) = none := by
    simp [matchNumber, numSign, numTail]
  have hop : matchOp ('-' :: ' ' :: c2 :: tl2) = some (['-'], ' ' :: c2 :: tl2) := by
    simp [matchOp, singleOpChars]
  simp [tokenizeGo, hmnone, hop, hmn2, hns2, ybind_ok, List.dropWhile_cons,
    show isSpaceChar ' ' = true from rfl, show isSpaceChar '-' = false from rfl,
    show matchString ('-' :: ' ' :: c2 :: tl2) = none from rfl]
end Yaffel

namespace Yaffel

/-- C10: a `-` directly followed by a digit is consumed as the sign of a
numeric literal.  For any two integer literals, tokenizing their
unspaced difference yields two adjacent number tokens (the second
carrying the sign), and any program that is exactly two adjacent number
tokens fails to parse; the spaced form tokenizes to number, minus,
number and evaluates to the integer difference. -/
theorem c10_negative_literal_tokenization (m n : Nat) (d1 d2 : List Char)
    (s1 s2 : String) (a b : Int)
    (hd1 : isIntLitB d1 = true) (hd2 : isIntLitB d2 = true)
    (h1 : makeNumber s1 = .int a) (h2 : makeNumber s2 = .int b) :
    tokenizeGo (m + 3) (d1 ++ '-' :: d2)
      = .ok [⟨.number, String.mk d1⟩, ⟨.number, String.mk ('-' :: d2)⟩]
  ∧ (∀ t1 t2 : String, parseToks [⟨.number, t1⟩, ⟨.number, t2⟩] = .error .noParse)
  ∧ tokenizeGo (m + 6) (d1 ++ ' ' :: '-' :: ' ' :: d2)
      = .ok [⟨.number, String.mk d1⟩, ⟨.op, "-"⟩, ⟨.number, String.mk d2⟩]
  ∧ parseToksFuel (n + 10) [⟨.number, s1⟩, ⟨.op, "-"⟩, ⟨.number, s2⟩]
      = .ok (.int, .int (a - b))
  ∧ parse "1-2" = .error .noParse
  ∧ parse "1 - 2" = .ok (.int, .int (-1))
  ∧ parse "12-34" = .error .noParse := by
  refine ⟨tokenizeGo_adjacent m d1 d2 hd1 hd2, ?_, tokenizeGo_spaced m d1 d2 hd1 hd2,
    ?_, rfl, rfl, rfl⟩
  · intro t1 t2
    rfl
  · simp only [parseToksFuel, yaffelGo, evaluableP]
    rw [show expressionP (n + 8) [⟨.number, s1⟩, ⟨.op, "-"⟩, ⟨.number, s2⟩]
        = .ok (Term.func (.func (.func (.val (makeNumber s1)) []) [])
            [(.sub, .func (.func (.val (makeNumber s2)) []) [])], [])
      from exprP_sub (n + 3) s1 s2]
    simp [evalExpr, valueOf_tier1, h1, h2, applyOp, ybind_ok, tyOf]

/-- Witness for C10 at the literals `1` and `2` (tokenization) and
`7 - 3` (spaced evaluation). -/
theorem c10_negative_literal_tokenization_witness :
    tokenizeGo 3 (['1'] ++ '-' :: ['2'])
      = .ok [⟨.number, String.mk ['1']⟩, ⟨.number, String.mk ('-' :: ['2'])⟩]
  ∧ parseToksFuel 10 [⟨.number, "7"⟩, ⟨.op, "-"⟩, ⟨.number, "3"⟩]
      = .ok (.int, .int 4) := by
  have h := c10_negative_literal_tokenization 0 0 ['1'] ['2'] "7" "3" 7 3
    (by decide) (by decide) rfl rfl
  exact ⟨h.1, by simpa using h.2.2.2.1⟩

end Yaffel
